import Mathlib

/-!
Shallow embedding of go-morss (src/morss.go): a feed-enrichment relay.
Timestamps are modelled as integers (`Int`), with `time.Before` as `<`.
Durations use seconds.  External collaborators (gofeed parsing, the
readability extractor, the gorilla/feeds serializers, the random source
and the wall clock) are modelled as oracle parameters collected in `Env`.
-/

namespace Morss

/-- Author of a feed or item (gofeed Person: name and email). -/
structure GoAuthor where
  name : String
  email : String
deriving Repr, DecidableEq

/-- A feed item (gofeed.Item fields used by src/morss.go).  Optional
timestamps model the nil-able `UpdatedParsed` / `PublishedParsed`. -/
structure Item where
  guid : String
  title : String
  link : String
  description : String
  content : String
  updatedParsed : Option Int
  publishedParsed : Option Int
  authors : List GoAuthor
deriving Repr, DecidableEq

/-- A parsed feed (gofeed.Feed fields used by src/morss.go). -/
structure Feed where
  title : String
  link : String
  description : String
  feedType : String
  updatedParsed : Option Int
  publishedParsed : Option Int
  authors : List GoAuthor
  items : List Item
deriving Repr, DecidableEq

/-- Constant from src/morss.go: `defaultHTTPTimeout = 30 * time.Second`,
in seconds. -/
def defaultHTTPTimeout : Int := 30

/-- Constant from src/morss.go: `defaultFromDaysAgo = 30*24 * time.Hour`,
in seconds. -/
def defaultFromDaysAgo : Int := 30 * 24 * 3600

/-- Constant from src/morss.go: `defaultItemsCap = 10`. -/
def defaultItemsCap : Int := 10

/-- The fixed pool of user-agent strings (`userAgents` in src/morss.go). -/
def userAgents : List String :=
  ["Mozilla/5.0 (Windows NT 10.0; Win64; x64) AppleWebKit/537.36 (KHTML, like Gecko) Chrome/131.0.0.0 Safari/537.36",
   "Mozilla/5.0 (Macintosh; Intel Mac OS X 10_15_7) AppleWebKit/537.36 (KHTML, like Gecko) Chrome/131.0.0.0 Safari/537.36",
   "Mozilla/5.0 (Windows NT 10.0; Win64; x64; rv:133.0) Gecko/20100101 Firefox/133.0",
   "Mozilla/5.0 (Windows NT 10.0; Win64; x64) AppleWebKit/537.36 (KHTML, like Gecko) Chrome/131.0.0.0 Safari/537.36 Edg/131.0.0.0",
   "Mozilla/5.0 (X11; Linux x86_64) AppleWebKit/537.36 (KHTML, like Gecko) Chrome/131.0.0.0 Safari/537.36",
   "Mozilla/5.0 (X11; Linux x86_64; rv:133.0) Gecko/20100101 Firefox/133.0",
   "Mozilla/5.0 (Macintosh; Intel Mac OS X 10.15; rv:133.0) Gecko/20100101 Firefox/133.0",
   "Mozilla/5.0 (Macintosh; Intel Mac OS X 10_15_7) AppleWebKit/605.1.15 (KHTML, like Gecko) Version/18.1.1 Safari/605.1.15",
   "Mozilla/5.0 (X11; Linux x86_64; rv:128.0) Gecko/20100101 Firefox/128.0",
   "Mozilla/5.0 (X11; Ubuntu; Linux x86_64; rv:133.0) Gecko/20100101 Firefox/133.0"]

/-- Embeds `getRandUserAgent`: `userAgents[rand.Intn(len(userAgents))]`.
The random draw `rand.Intn n`, a uniform value in `[0, n)`, is modelled by
reducing an ambient random natural `k` modulo `n`. -/
def getRandUserAgent (k : Nat) : String :=
  userAgents.getD (k % userAgents.length) ""

/-- Embeds the timestamp resolution in `fetchFeedItems` (lines 130-135):
`itemTime` is `UpdatedParsed` when non-nil, else `PublishedParsed`
when non-nil, else nil. -/
def resolveTime (item : Item) : Option Int :=
  match item.updatedParsed with
  | some t => some t
  | none => item.publishedParsed

/-- An item is eligible for enrichment when its content is empty and its
resolved timestamp exists and is not strictly before the lower bound
(mirrors the skip tests at lines 125-142 of src/morss.go). -/
def eligibleItem (fromT : Int) (item : Item) : Bool :=
  decide (item.content = "") &&
    match resolveTime item with
    | none => false
    | some t => decide (¬ t < fromT)

/-- Embeds the body of the enrichment goroutine (lines 146-158):
`readability.FromURL` either fails (item untouched) or returns article
content that overwrites `item.Content`.  The extractor is the oracle
`fetch`, keyed by the item link. -/
def enrichItem (fetch : String → Option String) (item : Item) : Item :=
  match fetch item.link with
  | none => item
  | some c => { item with content := c }

/-- Embeds the selection loop of `fetchFeedItems` (lines 116-159) as the
list of absolute indices (starting at `k`) of the items for which a
goroutine is launched, threading the running `count` against `itemsCap`
exactly as the source does (`count >= itemsCap` breaks the loop). -/
def selectIdxGo (fromT cap : Int) : List Item → Int → Nat → List Nat
  | [], _, _ => []
  | item :: rest, count, k =>
    if cap ≤ count then []
    else if item.content ≠ "" then selectIdxGo fromT cap rest count (k + 1)
    else
      match resolveTime item with
      | none => selectIdxGo fromT cap rest count (k + 1)
      | some t =>
        if t < fromT then selectIdxGo fromT cap rest count (k + 1)
        else k :: selectIdxGo fromT cap rest (count + 1) (k + 1)

/-- The indices of the items selected for enrichment by `fetchFeedItems`. -/
def selectIdx (fromT cap : Int) (items : List Item) : List Nat :=
  selectIdxGo fromT cap items 0 0

/-- Embeds the observable result of the `fetchFeedItems` loop on the item
list: scanned ineligible items and the unscanned tail (after the cap
break) are returned unchanged, selected items carry the enrichment
outcome.  This is the state of the items after `wg.Wait()` returns. -/
def fetchLoop (fetch : String → Option String) (fromT cap : Int) :
    List Item → Int → List Item
  | [], _ => []
  | item :: rest, count =>
    if cap ≤ count then item :: rest
    else if item.content ≠ "" then item :: fetchLoop fetch fromT cap rest count
    else
      match resolveTime item with
      | none => item :: fetchLoop fetch fromT cap rest count
      | some t =>
        if t < fromT then item :: fetchLoop fetch fromT cap rest count
        else enrichItem fetch item :: fetchLoop fetch fromT cap rest (count + 1)

/-- Embeds `fetchFeedItems` (src/morss.go lines 109-163) at the item-list
level: the joined result of selecting and enriching with `count` starting
at 0. -/
def fetchFeedItems (fetch : String → Option String) (fromT cap : Int)
    (items : List Item) : List Item :=
  fetchLoop fetch fromT cap items 0

/-- Embeds `FnMap` (src/morss.go lines 78-87); a Go nil slice and an empty
slice both map to the empty list. -/
def FnMap {I O : Type} (s : List I) (fn : I → O) : List O :=
  s.map fn

/-- Embeds Go `strings.TrimPrefix s pre`: drop `pre` when it starts `s`
(computed over the character list so that concrete instances evaluate). -/
def trimLeading (s pre : String) : String :=
  if pre.toList.isPrefixOf s.toList then (s.toList.drop pre.toList.length).asString else s

/-- Modelled from the Go standard library: `net/url.Parse` on the URLs this
server builds (`"https://" ++ rest`) succeeds with scheme `https` and with
host the part of `rest` before the first slash; any other shape is treated
as having no scheme or host. -/
def goURLSchemeHost (value : String) : Option (String × String) :=
  let cs := value.toList
  if "https://".toList.isPrefixOf cs then
    some ("https", ((cs.drop 8).takeWhile (· ≠ '/')).asString)
  else none

/-- Embeds `isValidUrl` (src/morss.go lines 89-92): parse succeeds and both
scheme and host are non-empty. -/
def isValidUrl (value : String) : Bool :=
  match goURLSchemeHost value with
  | some (scheme, host) => scheme ≠ "" && host ≠ ""
  | none => false

/-- Numeric value of a non-empty all-digit character list, else `none`. -/
def digitsVal (cs : List Char) : Option Nat :=
  if cs = [] then none
  else
    cs.foldl
      (fun acc c =>
        match acc with
        | none => none
        | some n => if c.isDigit then some (n * 10 + (c.toNat - 48)) else none)
      (some 0)

/-- Modelled from the Go standard library `strconv.Atoi`: an optional sign
followed by at least one decimal digit; anything else is an error (`none`).
Go also errors on 64-bit range overflow, which no claim here exercises. -/
def goAtoi (s : String) : Option Int :=
  match s.toList with
  | [] => none
  | '+' :: rest => (digitsVal rest).map Int.ofNat
  | '-' :: rest => (digitsVal rest).map (fun n => -(n : Int))
  | cs => (digitsVal cs).map Int.ofNat

/-- The state of the HTTP response writer: effective status (Go defaults to
200 when the handler returns without writing), whether the header block has
been flushed by an explicit `WriteHeader` or a body write, the
`Content-Type` header, and the accumulated body. -/
structure Response where
  status : Nat
  statusExplicit : Bool
  contentType : Option String
  body : String
deriving Repr, DecidableEq

/-- The response writer before the handler touches it. -/
def Response.init : Response :=
  { status := 200, statusExplicit := false, contentType := none, body := "" }

/-- Modelled from Go net/http: `Header().Set` takes effect only before the
header block is flushed. -/
def Response.setContentType (r : Response) (ct : String) : Response :=
  if r.statusExplicit then r else { r with contentType := some ct }

/-- Modelled from Go net/http: the first `WriteHeader` fixes the status;
later calls are ignored. -/
def Response.writeHeader (r : Response) (code : Nat) : Response :=
  if r.statusExplicit then r else { r with status := code, statusExplicit := true }

/-- Modelled from Go net/http: `Write` flushes an implicit 200 header if
none was written yet, then appends to the body. -/
def Response.write (r : Response) (s : String) : Response :=
  let r := r.writeHeader 200
  { r with body := r.body ++ s }

/-- Modelled from Go net/http: `http.Error` sets a plain-text content type,
writes the status code and the message followed by a newline. -/
def Response.httpError (r : Response) (msg : String) (code : Nat) : Response :=
  ((r.setContentType "text/plain; charset=utf-8").writeHeader code).write (msg ++ "\n")

/-- A gorilla/feeds item (`feeds.Item` fields populated by src/morss.go
lines 270-288).  Go zero-value times and nil authors are `none`. -/
structure NewItem where
  id : String
  title : String
  link : String
  description : String
  content : String
  updated : Option Int
  created : Option Int
  author : Option GoAuthor
deriving Repr, DecidableEq

/-- A gorilla/feeds feed (`feeds.Feed` fields populated by src/morss.go
lines 255-288). -/
structure NewFeed where
  title : String
  link : String
  description : String
  updated : Option Int
  created : Option Int
  author : Option GoAuthor
  items : List NewItem
deriving Repr, DecidableEq

/-- Embeds the per-item conversion inside `FnMap` (lines 270-288). -/
def buildNewItem (item : Item) : NewItem :=
  { id := item.guid
    title := item.title
    link := item.link
    description := item.description
    content := item.content
    updated := item.updatedParsed
    created := item.publishedParsed
    author :=
      match item.authors with
      | [] => none
      | a :: _ => some a }

/-- Embeds the output-feed assembly (src/morss.go lines 255-288): the title
gains the repack suffix, metadata is copied, items are converted. -/
def buildNewFeed (feed : Feed) : NewFeed :=
  { title := feed.title ++ " (repacked by go-morss)"
    link := feed.link
    description := feed.description
    updated := feed.updatedParsed
    created := feed.publishedParsed
    author :=
      match feed.authors with
      | [] => none
      | a :: _ => some a
    items := FnMap feed.items buildNewItem }

/-- The oracles for the external collaborators of one request: the stdlib
time parser, the feed download and parse result, the readability extractor
keyed by page URL, the three gorilla/feeds serializers, the JSON encoder
used on the serialized JSON body, the ambient random word consumed by
`getRandUserAgent`, and the current wall-clock time. -/
structure Env where
  parseTime : String → Option Int
  feedResult : Option Feed
  pageFetch : String → Option String
  toRss : NewFeed → Option String
  toAtom : NewFeed → Option String
  toJSON : NewFeed → Option String
  jsonEnc : String → String
  randNat : Nat
  now : Int

/-- What one call of `processRequest` did: the final response writer state,
whether `fetchFeed` (a network fetch) was invoked, the cap value passed to
`fetchFeedItems` (none when that call was never reached), and the format
branch that wrote a feed body (none when no feed body was written). -/
structure HandlerResult where
  response : Response
  feedFetched : Bool
  capUsed : Option Int
  servedFormat : Option String
deriving Repr, DecidableEq

/-- A handler outcome that returned before `fetchFeed` was called. -/
def noFetch (r : Response) : HandlerResult :=
  { response := r, feedFetched := false, capUsed := none, servedFormat := none }

/-- The informational page served on the root path (`badgePage` in
src/morss.go lines 32-51), with Go raw-string newlines and tabs kept. -/
def badgePage : String :=
  "\n<div style=\"font-family:sans-serif\">\n\n<p><a href=\"https://github.com/traut/go-morss\"><code>go-morss</code></a> adds full content to the items in RSS / Atom / JSON feeds.</p>\n<p>\n\tTo use <code>go-morss</code> API, add a feed URL without a schema to the root endpoint:\n\t<pre>&lt;go-morss-domain&gt;/&lt;feed-url-without-schema&gt;</pre>\n\tFor example, <a href=\"/news.ycombinator.com/rss\"><code>&lt;this-domain&gt;/news.ycombinator.com/rss</code></a>.\n\tYou can use this new URL in a feed reader or download the feed with a HTTP GET request.\n</p>\n<p>\nNote:\n\t<ul>\n\t<li>the schema <code>https://</code> is assumed for a feed URL</li>\n\t<li>the new feed is returned in the format of the original feed (RSS / Atom / JSON)\n\t<li>there is no cache support at the moment</li>\n\t</ul>\n</p>\n</div>\n"

/-- Embeds the serialization switch of `processRequest` (src/morss.go lines
291-324), starting from response state `r`: serialize by the input feed
format tag, 500 on serializer error, and fall through silently for any
other tag. -/
def serveFeed (env : Env) (r : Response) (cap : Int) (feed : Feed)
    (feedNew : NewFeed) : HandlerResult :=
  match feed.feedType with
  | "rss" =>
    match env.toRss feedNew with
    | none =>
      { response := r.httpError "Server error" 500, feedFetched := true,
        capUsed := some cap, servedFormat := none }
    | some b =>
      { response := (r.setContentType "application/xml").write (b ++ "\n"),
        feedFetched := true, capUsed := some cap, servedFormat := some "rss" }
  | "atom" =>
    match env.toAtom feedNew with
    | none =>
      { response := r.httpError "Server error" 500, feedFetched := true,
        capUsed := some cap, servedFormat := none }
    | some b =>
      { response := (r.setContentType "application/xml").write (b ++ "\n"),
        feedFetched := true, capUsed := some cap, servedFormat := some "atom" }
  | "json" =>
    match env.toJSON feedNew with
    | none =>
      { response := r.httpError "Server error" 500, feedFetched := true,
        capUsed := some cap, servedFormat := none }
    | some b =>
      { response := (r.setContentType "application/json").write (env.jsonEnc b ++ "\n"),
        feedFetched := true, capUsed := some cap, servedFormat := some "json" }
  | _ => { response := r, feedFetched := true, capUsed := some cap, servedFormat := none }

/-- Embeds `processRequest` (src/morss.go lines 175-325).  `path` is the
request path, `fromTimeQ` and `itemsCapQ` are the first values of the
`from_time` and `items_cap` query parameters when present.  Note the
faithful reproduction of the `items_cap` branch (lines 229-239): on a parse
error a 400 is written but the handler does NOT return; `strconv.Atoi`
returns 0 on error, so processing continues with a cap of 0. -/
def processRequest (env : Env) (path : String)
    (fromTimeQ itemsCapQ : Option String) (itemsCapByServer : Int) : HandlerResult :=
  let r0 := Response.init
  let feedURL := trimLeading path "/"
  if feedURL = "" then
    noFetch ((r0.setContentType "text/html; charset=utf-8").write badgePage)
  else if feedURL = "favicon.ico" then
    noFetch (r0.httpError "Not found" 404)
  else
    let feedURL := "https://" ++ feedURL
    if ¬ isValidUrl feedURL then
      noFetch (r0.httpError "No valid RSS URL found in the path" 400)
    else
      let fromTimeRes : Except Response Int :=
        match fromTimeQ with
        | none => .ok (env.now - defaultFromDaysAgo)
        | some s =>
          match env.parseTime s with
          | some t => .ok t
          | none =>
            .error (r0.httpError "Can\x27t parse `from_time` query param value" 400)
      match fromTimeRes with
      | .error r => noFetch r
      | .ok fromTime =>
        let capPair : Response × Int :=
          match itemsCapQ with
          | none => (r0, itemsCapByServer)
          | some s =>
            match goAtoi s with
            | some n => (r0, n)
            | none =>
              (r0.httpError "Can\x27t parse `from_time` query param value" 400, 0)
        let r1 := capPair.1
        let itemsCap := capPair.2
        match env.feedResult with
        | none =>
          { response := r1, feedFetched := true, capUsed := none, servedFormat := none }
        | some feed =>
          let feed2 := { feed with items := fetchFeedItems env.pageFetch fromTime itemsCap feed.items }
          serveFeed env r1 itemsCap feed2 (buildNewFeed feed2)

/-- An outbound HTTP fetch as issued by this program: target URL, the
user-agent explicitly chosen by the program (none when the call passes no
user agent and the HTTP library default applies), and the explicit
per-fetch timeout. -/
structure FetchCall where
  url : String
  userAgent : Option String
  timeout : Option Int
deriving Repr, DecidableEq

/-- The fetch issued by `fetchFeed` (src/morss.go lines 98-107): the gofeed
parser downloads `url` with `parser.UserAgent = getRandUserAgent()`. -/
def feedFetchCall (randNat : Nat) (url : String) : FetchCall :=
  { url := url, userAgent := some (getRandUserAgent randNat), timeout := none }

/-- The fetch issued by the enrichment goroutine (src/morss.go line 152):
`readability.FromURL(item.Link, defaultHTTPTimeout)` receives the link and
the timeout only; no user agent is selected or passed on this path. -/
def enrichFetchCall (item : Item) : FetchCall :=
  { url := item.link, userAgent := none, timeout := some defaultHTTPTimeout }

/-- One completion step of the concurrency model of `fetchFeedItems`: the
launched unit for absolute index `i` applies its enrichment outcome to its
own item; an index out of range changes nothing. -/
def applyUnit (fetch : String → Option String) (items : List Item) (i : Nat) : List Item :=
  match items[i]? with
  | none => items
  | some it => items.set i (enrichItem fetch it)

/-- The items visible at the `wg.Wait()` join when the launched units
completed in the order given by `sched`. -/
def runSchedule (fetch : String → Option String) (items : List Item)
    (sched : List Nat) : List Item :=
  sched.foldl (applyUnit fetch) items

/-- Concrete item: empty content, published time 10. -/
def itemFresh : Item :=
  { guid := "1", title := "fresh", link := "https://example.com/1", description := "",
    content := "", updatedParsed := none, publishedParsed := some 10, authors := [] }

/-- Concrete item: already carries content. -/
def itemFull : Item :=
  { guid := "2", title := "full", link := "https://example.com/2", description := "",
    content := "already here", updatedParsed := some 30, publishedParsed := none,
    authors := [] }

/-- Concrete item: empty content, updated time 20 (and an older published
time that must be ignored). -/
def itemFresh2 : Item :=
  { guid := "3", title := "fresh2", link := "https://example.com/3", description := "",
    content := "", updatedParsed := some 20, publishedParsed := some 5, authors := [] }

/-- Concrete item: empty content but its only timestamp is before 0. -/
def itemOld : Item :=
  { guid := "4", title := "old", link := "https://example.com/4", description := "",
    content := "", updatedParsed := none, publishedParsed := some (-5), authors := [] }

/-- Concrete item: empty content and no timestamp at all. -/
def itemNoTime : Item :=
  { guid := "5", title := "notime", link := "https://example.com/5", description := "",
    content := "", updatedParsed := none, publishedParsed := none, authors := [] }

/-- A concrete item list exercising every selector branch. -/
def sampleItems : List Item :=
  [itemFresh, itemFull, itemFresh2, itemOld, itemNoTime, itemFresh]

/-- A concrete extraction oracle: succeeds on the first sample link only. -/
def sampleFetch : String → Option String :=
  fun u => if u = "https://example.com/1" then some "FULL TEXT 1" else none

/-- A concrete feed around `sampleItems`, tagged RSS. -/
def sampleFeed : Feed :=
  { title := "Sample", link := "https://example.com", description := "d",
    feedType := "rss", updatedParsed := some 40, publishedParsed := some 1,
    authors := [{ name := "a", email := "e" }], items := sampleItems }

/-- A concrete oracle environment for the handler. -/
def sampleEnv : Env :=
  { parseTime := fun _ => none, feedResult := some sampleFeed,
    pageFetch := sampleFetch, toRss := fun _ => some "RSSBODY",
    toAtom := fun _ => some "ATOMBODY", toJSON := fun _ => some "JSONBODY",
    jsonEnc := fun s => s, randNat := 13, now := 0 }

/-- Concrete item whose only timestamp sits exactly on the lower bound 0. -/
def itemAtBound : Item :=
  { guid := "6", title := "bound", link := "https://example.com/6", description := "",
    content := "", updatedParsed := none, publishedParsed := some 0, authors := [] }

/-- The sample feed with a format tag that is none of rss, atom, json. -/
def sampleFeedOther : Feed :=
  { sampleFeed with feedType := "weird" }

/-- The sample environment delivering the unknown-format feed. -/
def sampleEnvOther : Env :=
  { parseTime := fun _ => none, feedResult := some sampleFeedOther,
    pageFetch := sampleFetch, toRss := fun _ => some "RSSBODY",
    toAtom := fun _ => some "ATOMBODY", toJSON := fun _ => some "JSONBODY",
    jsonEnc := fun s => s, randNat := 13, now := 0 }

/-- Step equation: the selection loop stops once the count reached the cap. -/
theorem selectIdxGo_cons_break {fromT cap count : Int} {k : Nat}
    (item : Item) (rest : List Item) (hcap : cap ≤ count) :
    selectIdxGo fromT cap (item :: rest) count k = [] := by
  simp [selectIdxGo, if_pos hcap]

/-- Step equation: an ineligible item is passed over without touching the
running count. -/
theorem selectIdxGo_cons_skip {fromT cap count : Int} {k : Nat} {item : Item}
    (rest : List Item) (hcap : ¬ cap ≤ count)
    (hskip : eligibleItem fromT item = false) :
    selectIdxGo fromT cap (item :: rest) count k =
      selectIdxGo fromT cap rest count (k + 1) := by
  simp only [selectIdxGo, if_neg hcap]
  by_cases hcont : item.content ≠ ""
  · rw [if_pos hcont]
  · rw [if_neg hcont]
    have hcont2 : item.content = "" := not_not.mp hcont
    cases htime : resolveTime item with
    | none => rfl
    | some t =>
      have ht : t < fromT := by
        simp [eligibleItem, hcont2, htime] at hskip
        exact hskip
      exact if_pos ht

/-- Step equation: an eligible item is accepted and the count advances. -/
theorem selectIdxGo_cons_accept {fromT cap count : Int} {k : Nat} {item : Item}
    (rest : List Item) (hcap : ¬ cap ≤ count)
    (hacc : eligibleItem fromT item = true) :
    selectIdxGo fromT cap (item :: rest) count k =
      k :: selectIdxGo fromT cap rest (count + 1) (k + 1) := by
  have hcont : item.content = "" := by
    by_contra hc
    simp [eligibleItem, hc] at hacc
  obtain ⟨t, htime, ht⟩ : ∃ t, resolveTime item = some t ∧ ¬ t < fromT := by
    cases htime : resolveTime item with
    | none => simp [eligibleItem, htime] at hacc
    | some t =>
      refine ⟨t, rfl, ?_⟩
      simp [eligibleItem, hcont, htime] at hacc
      omega
  simp only [selectIdxGo, if_neg hcap]
  rw [if_neg (not_ne_iff.mpr hcont), htime]
  exact if_neg ht

/-- Step equation: the enrichment loop leaves the whole tail untouched
once the count reached the cap. -/
theorem fetchLoop_cons_break (fetch : String → Option String)
    {fromT cap count : Int} (item : Item) (rest : List Item) (hcap : cap ≤ count) :
    fetchLoop fetch fromT cap (item :: rest) count = item :: rest := by
  simp [fetchLoop, if_pos hcap]

/-- Step equation: an ineligible item flows through the enrichment loop
unchanged, with the count unchanged. -/
theorem fetchLoop_cons_skip (fetch : String → Option String)
    {fromT cap count : Int} {item : Item} (rest : List Item)
    (hcap : ¬ cap ≤ count) (hskip : eligibleItem fromT item = false) :
    fetchLoop fetch fromT cap (item :: rest) count =
      item :: fetchLoop fetch fromT cap rest count := by
  simp only [fetchLoop, if_neg hcap]
  by_cases hcont : item.content ≠ ""
  · rw [if_pos hcont]
  · rw [if_neg hcont]
    have hcont2 : item.content = "" := not_not.mp hcont
    cases htime : resolveTime item with
    | none => rfl
    | some t =>
      have ht : t < fromT := by
        simp [eligibleItem, hcont2, htime] at hskip
        exact hskip
      exact if_pos ht

/-- Step equation: an eligible item receives its enrichment outcome and
the count advances. -/
theorem fetchLoop_cons_accept (fetch : String → Option String)
    {fromT cap count : Int} {item : Item} (rest : List Item)
    (hcap : ¬ cap ≤ count) (hacc : eligibleItem fromT item = true) :
    fetchLoop fetch fromT cap (item :: rest) count =
      enrichItem fetch item :: fetchLoop fetch fromT cap rest (count + 1) := by
  have hcont : item.content = "" := by
    by_contra hc
    simp [eligibleItem, hc] at hacc
  obtain ⟨t, htime, ht⟩ : ∃ t, resolveTime item = some t ∧ ¬ t < fromT := by
    cases htime : resolveTime item with
    | none => simp [eligibleItem, htime] at hacc
    | some t =>
      refine ⟨t, rfl, ?_⟩
      simp [eligibleItem, hcont, htime] at hacc
      omega
  simp only [fetchLoop, if_neg hcap]
  rw [if_neg (not_ne_iff.mpr hcont), htime]
  exact if_neg ht

/-- Every index produced by the selection loop is at least the starting
absolute index `k`. -/
theorem selectIdxGo_ge (fromT cap : Int) :
    ∀ (items : List Item) (count : Int) (k j : Nat),
      j ∈ selectIdxGo fromT cap items count k → k ≤ j := by
  intro items
  induction items with
  | nil =>
    intro count k j h
    simp [selectIdxGo] at h
  | cons item rest ih =>
    intro count k j h
    by_cases hcap : cap ≤ count
    · rw [selectIdxGo_cons_break item rest hcap] at h
      simp at h
    · cases helig : eligibleItem fromT item with
      | false =>
        rw [selectIdxGo_cons_skip rest hcap helig] at h
        have := ih count (k + 1) j h
        omega
      | true =>
        rw [selectIdxGo_cons_accept rest hcap helig] at h
        rcases List.mem_cons.mp h with rfl | h2
        · omega
        · have := ih (count + 1) (k + 1) j h2
          omega

/-- The selection loop emits strictly increasing indices: selection
respects the source order of the items. -/
theorem selectIdxGo_sorted (fromT cap : Int) :
    ∀ (items : List Item) (count : Int) (k : Nat),
      (selectIdxGo fromT cap items count k).Pairwise (· < ·) := by
  intro items
  induction items with
  | nil =>
    intro count k
    simp [selectIdxGo]
  | cons item rest ih =>
    intro count k
    by_cases hcap : cap ≤ count
    · rw [selectIdxGo_cons_break item rest hcap]
      simp
    · cases helig : eligibleItem fromT item with
      | false =>
        rw [selectIdxGo_cons_skip rest hcap helig]
        exact ih count (k + 1)
      | true =>
        rw [selectIdxGo_cons_accept rest hcap helig]
        refine List.pairwise_cons.mpr ⟨?_, ih (count + 1) (k + 1)⟩
        intro j hj
        have := selectIdxGo_ge fromT cap rest (count + 1) (k + 1) j hj
        omega

/-- Every index produced by the selection loop points at an eligible item:
empty content, resolvable timestamp, not before the bound. -/
theorem selectIdxGo_mem_eligible (fromT cap : Int) :
    ∀ (items : List Item) (count : Int) (k j : Nat),
      j ∈ selectIdxGo fromT cap items count k →
      ∃ (i : Nat) (it : Item),
        j = k + i ∧ items[i]? = some it ∧ eligibleItem fromT it = true := by
  intro items
  induction items with
  | nil =>
    intro count k j h
    simp [selectIdxGo] at h
  | cons item rest ih =>
    intro count k j h
    by_cases hcap : cap ≤ count
    · rw [selectIdxGo_cons_break item rest hcap] at h
      simp at h
    · cases helig : eligibleItem fromT item with
      | false =>
        rw [selectIdxGo_cons_skip rest hcap helig] at h
        obtain ⟨i, it, hj, hget, he⟩ := ih count (k + 1) j h
        exact ⟨i + 1, it, by omega, by simpa using hget, he⟩
      | true =>
        rw [selectIdxGo_cons_accept rest hcap helig] at h
        rcases List.mem_cons.mp h with rfl | h2
        · exact ⟨0, item, by omega, by simp, helig⟩
        · obtain ⟨i, it, hj, hget, he⟩ := ih (count + 1) (k + 1) j h2
          exact ⟨i + 1, it, by omega, by simpa using hget, he⟩

/-- The selection loop accepts at most `cap - count` further items. -/
theorem selectIdxGo_length (fromT cap : Int) :
    ∀ (items : List Item) (count : Int) (k : Nat),
      (selectIdxGo fromT cap items count k).length ≤ (cap - count).toNat := by
  intro items
  induction items with
  | nil =>
    intro count k
    simp [selectIdxGo]
  | cons item rest ih =>
    intro count k
    by_cases hcap : cap ≤ count
    · rw [selectIdxGo_cons_break item rest hcap]
      simp
    · cases helig : eligibleItem fromT item with
      | false =>
        rw [selectIdxGo_cons_skip rest hcap helig]
        have := ih count (k + 1)
        omega
      | true =>
        rw [selectIdxGo_cons_accept rest hcap helig]
        have := ih (count + 1) (k + 1)
        simp only [List.length_cons]
        omega

/-- The enrichment loop never drops or adds items. -/
theorem fetchLoop_length (fetch : String → Option String) (fromT cap : Int) :
    ∀ (items : List Item) (count : Int),
      (fetchLoop fetch fromT cap items count).length = items.length := by
  intro items
  induction items with
  | nil =>
    intro count
    simp [fetchLoop]
  | cons item rest ih =>
    intro count
    by_cases hcap : cap ≤ count
    · rw [fetchLoop_cons_break fetch item rest hcap]
    · cases helig : eligibleItem fromT item with
      | false =>
        rw [fetchLoop_cons_skip fetch rest hcap helig]
        simp [ih count]
      | true =>
        rw [fetchLoop_cons_accept fetch rest hcap helig]
        simp [ih (count + 1)]

/-- Pointwise description of the enrichment loop: position `j` carries the
enrichment outcome exactly when the selection loop picked absolute index
`k + j`, and the original item otherwise. -/
theorem fetchLoop_getElem? (fetch : String → Option String) (fromT cap : Int) :
    ∀ (items : List Item) (count : Int) (k j : Nat),
      (fetchLoop fetch fromT cap items count)[j]? =
        if k + j ∈ selectIdxGo fromT cap items count k
        then (items[j]?).map (enrichItem fetch)
        else items[j]? := by
  intro items
  induction items with
  | nil =>
    intro count k j
    simp [fetchLoop, selectIdxGo]
  | cons item rest ih =>
    intro count k j
    by_cases hcap : cap ≤ count
    · rw [fetchLoop_cons_break fetch item rest hcap, selectIdxGo_cons_break item rest hcap]
      simp
    · cases helig : eligibleItem fromT item with
      | false =>
        rw [fetchLoop_cons_skip fetch rest hcap helig, selectIdxGo_cons_skip rest hcap helig]
        cases j with
        | zero =>
          have hnot : ¬ k + 0 ∈ selectIdxGo fromT cap rest count (k + 1) := by
            intro hmem
            have := selectIdxGo_ge fromT cap rest count (k + 1) (k + 0) hmem
            omega
          rw [if_neg hnot]
          simp
        | succ j' =>
          simp only [List.getElem?_cons_succ]
          rw [show k + (j' + 1) = (k + 1) + j' by omega]
          exact ih count (k + 1) j'
      | true =>
        rw [fetchLoop_cons_accept fetch rest hcap helig, selectIdxGo_cons_accept rest hcap helig]
        cases j with
        | zero =>
          have hmem : k + 0 ∈ k :: selectIdxGo fromT cap rest (count + 1) (k + 1) := by
            simp
          rw [if_pos hmem]
          simp
        | succ j' =>
          have hne : ¬ k + (j' + 1) = k := by omega
          simp only [List.getElem?_cons_succ, List.mem_cons, hne, false_or]
          rw [show k + (j' + 1) = (k + 1) + j' by omega]
          exact ih (count + 1) (k + 1) j'

/-- The indices selected within one request are pairwise distinct. -/
theorem selectIdx_nodup (fromT cap : Int) (items : List Item) :
    (selectIdx fromT cap items).Nodup :=
  (selectIdxGo_sorted fromT cap items 0 0).imp Nat.ne_of_lt

/-- Pointwise description of `fetchFeedItems` via the selected indices. -/
theorem fetchFeedItems_getElem? (fetch : String → Option String) (fromT cap : Int)
    (items : List Item) (j : Nat) :
    (fetchFeedItems fetch fromT cap items)[j]? =
      if j ∈ selectIdx fromT cap items
      then (items[j]?).map (enrichItem fetch)
      else items[j]? := by
  have h := fetchLoop_getElem? fetch fromT cap items 0 0 j
  rw [Nat.zero_add] at h
  exact h

/-- Completing one launched unit changes at most its own position. -/
theorem applyUnit_getElem? (fetch : String → Option String) (items : List Item)
    (i j : Nat) :
    (applyUnit fetch items i)[j]? =
      if j = i then (items[i]?).map (enrichItem fetch) else items[j]? := by
  unfold applyUnit
  cases hi : items[i]? with
  | none =>
    change items[j]? = _
    by_cases hij : j = i
    · subst hij
      simp [hi]
    · simp [hij]
  | some it =>
    change (items.set i (enrichItem fetch it))[j]? = _
    have hlen : i < items.length := by
      by_contra hge
      rw [List.getElem?_eq_none (by omega)] at hi
      cases hi
    by_cases hij : j = i
    · subst hij
      rw [if_pos rfl, List.getElem?_set_eq_of_lt _ hlen]
      rfl
    · rw [if_neg hij, List.getElem?_set_ne (fun h => hij h.symm)]

/-- After all launched units completed, in whatever order without repeats,
position `j` carries the enrichment outcome exactly when a unit was
launched for it. -/
theorem runSchedule_getElem? (fetch : String → Option String) :
    ∀ (sched : List Nat) (items : List Item) (j : Nat), sched.Nodup →
      (runSchedule fetch items sched)[j]? =
        if j ∈ sched then (items[j]?).map (enrichItem fetch) else items[j]? := by
  intro sched
  induction sched with
  | nil =>
    intro items j _
    simp [runSchedule]
  | cons i rest ih =>
    intro items j hnd
    have hni : i ∉ rest := (List.nodup_cons.mp hnd).1
    have hndr : rest.Nodup := (List.nodup_cons.mp hnd).2
    show (runSchedule fetch (applyUnit fetch items i) rest)[j]? = _
    rw [ih (applyUnit fetch items i) j hndr]
    by_cases hj : j ∈ rest
    · have hji : ¬ j = i := fun h => hni (h ▸ hj)
      rw [if_pos hj, applyUnit_getElem? fetch items i j, if_neg hji,
        if_pos (List.mem_cons_of_mem i hj)]
    · rw [if_neg hj, applyUnit_getElem? fetch items i j]
      by_cases hji : j = i
      · subst hji
        rw [if_pos rfl, if_pos (List.mem_cons.mpr (Or.inl rfl))]
      · rw [if_neg hji, if_neg (by simp [hji, hj])]

/-- A request with a usable path and no query parameters, whose feed fetch
succeeds, reaches the serialization switch on the enriched feed. -/
theorem processRequest_reaches_serve (env : Env) (path : String) (capS : Int)
    (feed : Feed)
    (h1 : trimLeading path "/" ≠ "") (h2 : trimLeading path "/" ≠ "favicon.ico")
    (h3 : isValidUrl ("https://" ++ trimLeading path "/") = true)
    (hfeed : env.feedResult = some feed) :
    processRequest env path none none capS =
      serveFeed env Response.init capS
        { feed with
          items := fetchFeedItems env.pageFetch (env.now - defaultFromDaysAgo) capS feed.items }
        (buildNewFeed
          { feed with
            items := fetchFeedItems env.pageFetch (env.now - defaultFromDaysAgo) capS feed.items }) := by
  simp [processRequest, h1, h2, h3, hfeed]

/-- C1: the spec scenario requires that a non-integer `items_cap` value
makes the handler respond 400 and abort before any network fetch.  The
source writes the 400 but has no return in that branch, so it still calls
`fetchFeed` and runs the pipeline with the Atoi zero error-value as the
cap: at the concrete request `path = /example.com/rss`,
`items_cap = abc`, the final status is 400 yet the feed fetch was
performed and `fetchFeedItems` received a cap of 0. -/
theorem claim_C1_itemscap_bug_demo :
    (processRequest sampleEnv "/example.com/rss" none (some "abc") 10).response.status = 400 ∧
    (processRequest sampleEnv "/example.com/rss" none (some "abc") 10).feedFetched = true ∧
    (processRequest sampleEnv "/example.com/rss" none (some "abc") 10).capUsed = some 0 := by
  refine ⟨?_, ?_, ?_⟩ <;> decide

/-- C2: with a nonnegative cap the selector accepts at most `cap` items;
every accepted index points at an item with empty content and a
resolvable timestamp not before the bound; accepted indices are strictly
increasing, so selection follows source order and is deterministic; and
every position not selected — skipped or left unscanned after the cap
break — comes out of the pipeline with its original item unchanged. -/
theorem claim_C2_selector_cap_bound (fetch : String → Option String)
    (fromT cap : Int) (items : List Item) (hcap : 0 ≤ cap) :
    ((selectIdx fromT cap items).length : Int) ≤ cap ∧
    (∀ j ∈ selectIdx fromT cap items,
      ∃ it, items[j]? = some it ∧ eligibleItem fromT it = true) ∧
    (selectIdx fromT cap items).Pairwise (· < ·) ∧
    (∀ j : Nat, j ∉ selectIdx fromT cap items →
      (fetchFeedItems fetch fromT cap items)[j]? = items[j]?) := by
  refine ⟨?_, ?_, selectIdxGo_sorted fromT cap items 0 0, ?_⟩
  · have h := selectIdxGo_length fromT cap items 0 0
    simp only [selectIdx]
    omega
  · intro j hj
    obtain ⟨i, it, hji, hget, he⟩ := selectIdxGo_mem_eligible fromT cap items 0 0 j hj
    have hij : j = i := by omega
    subst hij
    exact ⟨it, hget, he⟩
  · intro j hj
    rw [fetchFeedItems_getElem?, if_neg hj]

/-- Witness for C2 at the concrete sample inputs. -/
theorem claim_C2_selector_cap_bound_witness :
    (0 : Int) ≤ 2 ∧
    ((selectIdx 0 2 sampleItems).length : Int) ≤ 2 ∧
    (fetchFeedItems sampleFetch 0 2 sampleItems)[3]? = sampleItems[3]? := by
  refine ⟨by decide, ?_, ?_⟩
  · exact (claim_C2_selector_cap_bound sampleFetch 0 2 sampleItems (by decide)).1
  · exact (claim_C2_selector_cap_bound sampleFetch 0 2 sampleItems (by decide)).2.2.2
      3 (by decide)

/-- C3: an item already carrying non-empty content is passed over without
touching the running count, is never selected, and reaches the output of
the whole pipeline unchanged. -/
theorem claim_C3_nonempty_content_untouched (fetch : String → Option String)
    (fromT cap : Int) (items : List Item) :
    (∀ (item : Item) (rest : List Item) (count : Int) (k : Nat),
        item.content ≠ "" → ¬ cap ≤ count →
        selectIdxGo fromT cap (item :: rest) count k =
          selectIdxGo fromT cap rest count (k + 1)) ∧
    (∀ (j : Nat) (it : Item), items[j]? = some it → it.content ≠ "" →
        j ∉ selectIdx fromT cap items ∧
        (fetchFeedItems fetch fromT cap items)[j]? = some it) := by
  constructor
  · intro item rest count k hcont hcap
    exact selectIdxGo_cons_skip rest hcap (by simp [eligibleItem, hcont])
  · intro j it hget hcont
    have hnot : j ∉ selectIdx fromT cap items := by
      intro hj
      obtain ⟨i, it', hji, hget', he⟩ := selectIdxGo_mem_eligible fromT cap items 0 0 j hj
      have hij : j = i := by omega
      subst hij
      rw [hget] at hget'
      obtain rfl : it = it' := Option.some_inj.mp hget'
      simp [eligibleItem, hcont] at he
    refine ⟨hnot, ?_⟩
    rw [fetchFeedItems_getElem?, if_neg hnot]
    exact hget

/-- Witness for C3 at the concrete sample inputs. -/
theorem claim_C3_nonempty_content_untouched_witness :
    itemFull.content ≠ "" ∧
    1 ∉ selectIdx 0 2 sampleItems ∧
    (fetchFeedItems sampleFetch 0 2 sampleItems)[1]? = some itemFull := by
  have h := (claim_C3_nonempty_content_untouched sampleFetch 0 2 sampleItems).2
    1 itemFull (by decide) (by decide)
  exact ⟨by decide, h.1, h.2⟩

/-- C4: the resolved timestamp prefers the updated time and falls back to
the published time; an item with no resolvable timestamp is skipped
without counting and can never be selected; an item strictly before the
bound is skipped without counting and can never be selected; an item whose
timestamp equals the bound passes the time test and is accepted when the
cap is not yet reached. -/
theorem claim_C4_time_rules (fromT cap : Int) (items : List Item) :
    (∀ (it : Item) (u : Int), it.updatedParsed = some u → resolveTime it = some u) ∧
    (∀ it : Item, it.updatedParsed = none → resolveTime it = it.publishedParsed) ∧
    (∀ (item : Item) (rest : List Item) (count : Int) (k : Nat),
        ¬ cap ≤ count → resolveTime item = none →
        selectIdxGo fromT cap (item :: rest) count k =
          selectIdxGo fromT cap rest count (k + 1)) ∧
    (∀ (j : Nat) (it : Item), items[j]? = some it → resolveTime it = none →
        j ∉ selectIdx fromT cap items) ∧
    (∀ (item : Item) (rest : List Item) (count : Int) (k : Nat) (t : Int),
        ¬ cap ≤ count → resolveTime item = some t → t < fromT →
        selectIdxGo fromT cap (item :: rest) count k =
          selectIdxGo fromT cap rest count (k + 1)) ∧
    (∀ (j : Nat) (it : Item) (t : Int), items[j]? = some it →
        resolveTime it = some t → t < fromT → j ∉ selectIdx fromT cap items) ∧
    (∀ (item : Item) (rest : List Item) (count : Int) (k : Nat),
        ¬ cap ≤ count → item.content = "" → resolveTime item = some fromT →
        selectIdxGo fromT cap (item :: rest) count k =
          k :: selectIdxGo fromT cap rest (count + 1) (k + 1)) := by
  refine ⟨?_, ?_, ?_, ?_, ?_, ?_, ?_⟩
  · intro it u h
    simp [resolveTime, h]
  · intro it h
    simp [resolveTime, h]
  · intro item rest count k hcap hnone
    exact selectIdxGo_cons_skip rest hcap (by simp [eligibleItem, hnone])
  · intro j it hget hnone hj
    obtain ⟨i, it', hji, hget', he⟩ := selectIdxGo_mem_eligible fromT cap items 0 0 j hj
    have hij : j = i := by omega
    subst hij
    rw [hget] at hget'
    obtain rfl : it = it' := Option.some_inj.mp hget'
    simp [eligibleItem, hnone] at he
  · intro item rest count k t hcap htime ht
    exact selectIdxGo_cons_skip rest hcap (by simp [eligibleItem, htime, ht])
  · intro j it t hget htime ht hj
    obtain ⟨i, it', hji, hget', he⟩ := selectIdxGo_mem_eligible fromT cap items 0 0 j hj
    have hij : j = i := by omega
    subst hij
    rw [hget] at hget'
    obtain rfl : it = it' := Option.some_inj.mp hget'
    simp [eligibleItem, htime] at he
    omega
  · intro item rest count k hcap hcont htime
    refine selectIdxGo_cons_accept rest hcap ?_
    simp [eligibleItem, hcont, htime]

/-- Witness for C4 at the concrete sample inputs. -/
theorem claim_C4_time_rules_witness :
    resolveTime itemFresh2 = some 20 ∧
    (4 : Nat) ∉ selectIdx 0 10 sampleItems ∧
    (3 : Nat) ∉ selectIdx 0 10 sampleItems ∧
    selectIdxGo 0 10 [itemAtBound] 0 0 = 0 :: selectIdxGo 0 10 [] 1 1 := by
  refine ⟨?_, ?_, ?_, ?_⟩
  · exact (claim_C4_time_rules 0 10 sampleItems).1 itemFresh2 20 (by decide)
  · exact (claim_C4_time_rules 0 10 sampleItems).2.2.2.1 4 itemNoTime
      (by decide) (by decide)
  · exact (claim_C4_time_rules 0 10 sampleItems).2.2.2.2.2.1 3 itemOld (-5)
      (by decide) (by decide) (by decide)
  · exact (claim_C4_time_rules 0 10 []).2.2.2.2.2.2 itemAtBound [] 0 0
      (by decide) (by decide) (by decide)

/-- C5: a failed per-item fetch leaves the item exactly as it was and a
successful fetch overwrites only the content field; the pipeline is total
and returns the complete item list (no per-item error escapes the
enricher), and any item whose fetch fails reaches the output unchanged,
whether or not it was selected. -/
theorem claim_C5_failure_isolation (fetch : String → Option String)
    (fromT cap : Int) (items : List Item) :
    (∀ it : Item, fetch it.link = none → enrichItem fetch it = it) ∧
    (∀ (it : Item) (c : String), fetch it.link = some c →
        enrichItem fetch it = { it with content := c }) ∧
    (fetchFeedItems fetch fromT cap items).length = items.length ∧
    (∀ (j : Nat) (it : Item), items[j]? = some it → fetch it.link = none →
        (fetchFeedItems fetch fromT cap items)[j]? = some it) ∧
    (∀ (j : Nat) (it : Item), items[j]? = some it →
        (fetchFeedItems fetch fromT cap items)[j]? = some it ∨
        ∃ c, fetch it.link = some c ∧
          (fetchFeedItems fetch fromT cap items)[j]? = some { it with content := c }) := by
  refine ⟨?_, ?_, fetchLoop_length fetch fromT cap items 0, ?_, ?_⟩
  · intro it h
    simp [enrichItem, h]
  · intro it c h
    simp [enrichItem, h]
  · intro j it hget hfail
    rw [fetchFeedItems_getElem?]
    by_cases hj : j ∈ selectIdx fromT cap items
    · rw [if_pos hj, hget]
      simp [enrichItem, hfail]
    · rw [if_neg hj]
      exact hget
  · intro j it hget
    rw [fetchFeedItems_getElem?]
    by_cases hj : j ∈ selectIdx fromT cap items
    · rw [if_pos hj, hget]
      cases hf : fetch it.link with
      | none =>
        left
        simp [enrichItem, hf]
      | some c =>
        right
        exact ⟨c, rfl, by simp [enrichItem, hf]⟩
    · rw [if_neg hj]
      left
      exact hget

/-- Witness for C5 at the concrete sample inputs. -/
theorem claim_C5_failure_isolation_witness :
    sampleFetch itemOld.link = none ∧
    (fetchFeedItems sampleFetch 0 2 sampleItems)[3]? = some itemOld := by
  refine ⟨by decide, ?_⟩
  exact (claim_C5_failure_isolation sampleFetch 0 2 sampleItems).2.2.2.1
    3 itemOld (by decide) (by decide)

/-- C6: `fetchFeedItems` launches one unit of work per selected index and
blocks on the join before returning.  Modelling the completion order of
the launched units as any permutation of the selected indices, the item
list visible at the join is always the same and equals the deterministic
pipeline result: completion order has no observable effect, and the
caller (feed assembly) sees only the fully joined result, never a partial
one. -/
theorem claim_C6_join_complete (fetch : String → Option String)
    (fromT cap : Int) (items : List Item) (sched : List Nat)
    (hperm : sched.Perm (selectIdx fromT cap items)) :
    runSchedule fetch items sched = fetchFeedItems fetch fromT cap items := by
  have hnd : sched.Nodup := hperm.nodup_iff.mpr (selectIdx_nodup fromT cap items)
  apply List.ext_getElem?
  intro j
  rw [runSchedule_getElem? fetch sched items j hnd, fetchFeedItems_getElem?]
  by_cases hj : j ∈ selectIdx fromT cap items
  · rw [if_pos (hperm.mem_iff.mpr hj), if_pos hj]
  · rw [if_neg (fun h => hj (hperm.mem_iff.mp h)), if_neg hj]

/-- Witness for C6: the two selected units completing in reverse order
still produce the deterministic pipeline result. -/
theorem claim_C6_join_complete_witness :
    ([2, 0] : List Nat).Perm (selectIdx 0 2 sampleItems) ∧
    runSchedule sampleFetch sampleItems [2, 0] =
      fetchFeedItems sampleFetch 0 2 sampleItems := by
  refine ⟨by decide, ?_⟩
  exact claim_C6_join_complete sampleFetch 0 2 sampleItems [2, 0] (by decide)

/-- C7: whenever the handler writes a serialized feed body, the
serialization branch taken equals the fetched feed format tag (rss in,
rss out; atom in, atom out; json in, json out) and the Content-Type
header matches: application/xml for rss and atom, application/json for
json. -/
theorem claim_C7_format_preserved (env : Env) (path : String) (capS : Int)
    (feed : Feed) (fmt : String)
    (h1 : trimLeading path "/" ≠ "")
    (h2 : trimLeading path "/" ≠ "favicon.ico")
    (h3 : isValidUrl ("https://" ++ trimLeading path "/") = true)
    (hfeed : env.feedResult = some feed)
    (hserved : (processRequest env path none none capS).servedFormat = some fmt) :
    fmt = feed.feedType ∧
    (processRequest env path none none capS).response.contentType =
      some (if fmt = "json" then "application/json" else "application/xml") := by
  rw [processRequest_reaches_serve env path capS feed h1 h2 h3 hfeed] at hserved ⊢
  set feed2 : Feed :=
    { feed with
      items := fetchFeedItems env.pageFetch (env.now - defaultFromDaysAgo) capS feed.items }
    with hfeed2
  by_cases hr : feed.feedType = "rss"
  · cases hb : env.toRss (buildNewFeed feed2) with
    | none => simp [serveFeed, hr, hb] at hserved
    | some b =>
      simp only [serveFeed, hr, hb] at hserved ⊢
      simp at hserved
      subst hserved
      refine ⟨rfl, ?_⟩
      simp [Response.setContentType, Response.write, Response.writeHeader, Response.init]
  · by_cases ha : feed.feedType = "atom"
    · cases hb : env.toAtom (buildNewFeed feed2) with
      | none => simp [serveFeed, hr, ha, hb] at hserved
      | some b =>
        simp only [serveFeed, hr, ha, hb] at hserved ⊢
        simp at hserved
        subst hserved
        refine ⟨rfl, ?_⟩
        simp [Response.setContentType, Response.write, Response.writeHeader, Response.init]
    · by_cases hj : feed.feedType = "json"
      · cases hb : env.toJSON (buildNewFeed feed2) with
        | none => simp [serveFeed, hr, ha, hj, hb] at hserved
        | some b =>
          simp only [serveFeed, hr, ha, hj, hb] at hserved ⊢
          simp at hserved
          subst hserved
          refine ⟨rfl, ?_⟩
          simp [Response.setContentType, Response.write, Response.writeHeader,
            Response.init]
      · simp [serveFeed, hr, ha, hj] at hserved

/-- Witness for C7: the sample rss feed served through the handler. -/
theorem claim_C7_format_preserved_witness :
    (processRequest sampleEnv "/example.com/rss" none none 10).servedFormat = some "rss" ∧
    "rss" = sampleFeed.feedType ∧
    (processRequest sampleEnv "/example.com/rss" none none 10).response.contentType =
      some "application/xml" := by
  have h := claim_C7_format_preserved sampleEnv "/example.com/rss" 10 sampleFeed "rss"
    (by decide) (by decide) (by decide) (by decide) (by decide)
  exact ⟨by decide, h.1, by simpa using h.2⟩

/-- C8 counterexample: the spec places the randomized user-agent choice on
the per-item enrichment fetch, but that fetch
(`readability.FromURL(item.Link, defaultHTTPTimeout)`) passes only the
link and the timeout: at the concrete sample item, the enrichment fetch
carries no user agent chosen from the pool at all. -/
theorem claim_C8_counterexample :
    ¬ ∃ ua ∈ userAgents, (enrichFetchCall itemFresh).userAgent = some ua := by
  rintro ⟨ua, -, h⟩
  simp [enrichFetchCall] at h

/-- C8 amended: the randomized client identity from the fixed pool is
chosen for the feed download performed by `fetchFeed`
(`parser.UserAgent = getRandUserAgent()`), for every value of the random
draw; the per-item enrichment fetches pass only the item link and the
fixed timeout, choosing no user agent from the pool. -/
theorem claim_C8_amended (k : Nat) (url : String) (item : Item) :
    (feedFetchCall k url).userAgent = some (getRandUserAgent k) ∧
    getRandUserAgent k ∈ userAgents ∧
    (enrichFetchCall item).userAgent = none ∧
    (enrichFetchCall item).timeout = some defaultHTTPTimeout := by
  refine ⟨rfl, ?_, rfl, rfl⟩
  have hlt : k % userAgents.length < userAgents.length :=
    Nat.mod_lt _ (by decide)
  rw [getRandUserAgent, List.getD_eq_getElem _ _ hlt]
  exact List.getElem_mem hlt

/-- Witness for the amended C8 at a concrete random draw. -/
theorem claim_C8_amended_witness :
    (feedFetchCall 13 "https://example.com/rss").userAgent = some (getRandUserAgent 13) ∧
    getRandUserAgent 13 ∈ userAgents := by
  have h := claim_C8_amended 13 "https://example.com/rss" itemFresh
  exact ⟨h.1, h.2.1⟩

/-- C9: the output feed title is always the input feed title with the
repack suffix appended, so the input title is never emitted verbatim. -/
theorem claim_C9_title_suffix (feed : Feed) :
    (buildNewFeed feed).title = feed.title ++ " (repacked by go-morss)" ∧
    (buildNewFeed feed).title ≠ feed.title := by
  refine ⟨rfl, ?_⟩
  intro h
  have hlen := congrArg String.length h
  rw [buildNewFeed] at hlen
  simp only [String.length_append] at hlen
  have h23 : (" (repacked by go-morss)").length = 23 := by decide
  rw [h23] at hlen
  omega

/-- Witness for C9 at the concrete sample feed. -/
theorem claim_C9_title_suffix_witness :
    (buildNewFeed sampleFeed).title = "Sample (repacked by go-morss)" ∧
    (buildNewFeed sampleFeed).title ≠ sampleFeed.title := by
  have h := claim_C9_title_suffix sampleFeed
  exact ⟨by decide, h.2⟩

/-- C10: when the fetched feed carries a format tag that is none of rss,
atom or json, the serialization switch falls through: nothing is written,
no Content-Type is set, no status is set, and the response is the
implicit empty 200. -/
theorem claim_C10_unknown_format (env : Env) (path : String) (capS : Int)
    (feed : Feed)
    (h1 : trimLeading path "/" ≠ "")
    (h2 : trimLeading path "/" ≠ "favicon.ico")
    (h3 : isValidUrl ("https://" ++ trimLeading path "/") = true)
    (hfeed : env.feedResult = some feed)
    (hr : feed.feedType ≠ "rss") (ha : feed.feedType ≠ "atom")
    (hj : feed.feedType ≠ "json") :
    (processRequest env path none none capS).response = Response.init ∧
    (processRequest env path none none capS).response.status = 200 ∧
    (processRequest env path none none capS).response.statusExplicit = false ∧
    (processRequest env path none none capS).response.body = "" ∧
    (processRequest env path none none capS).response.contentType = none ∧
    (processRequest env path none none capS).servedFormat = none := by
  rw [processRequest_reaches_serve env path capS feed h1 h2 h3 hfeed]
  refine ⟨?_, ?_, ?_, ?_, ?_, ?_⟩ <;>
    simp [serveFeed, hr, ha, hj, Response.init]

/-- Witness for C10 at the concrete unknown-format sample feed. -/
theorem claim_C10_unknown_format_witness :
    sampleFeedOther.feedType = "weird" ∧
    (processRequest sampleEnvOther "/example.com/rss" none none 10).response.status = 200 ∧
    (processRequest sampleEnvOther "/example.com/rss" none none 10).response.body = "" ∧
    (processRequest sampleEnvOther "/example.com/rss" none none 10).servedFormat = none := by
  have h := claim_C10_unknown_format sampleEnvOther "/example.com/rss" 10 sampleFeedOther
    (by decide) (by decide) (by decide) (by decide) (by decide) (by decide) (by decide)
  exact ⟨by decide, h.2.1, h.2.2.2.1, h.2.2.2.2.2⟩

end Morss
